import Mathlib

/-!
# Verification of the pyDeComp dispatcher

Shallow embedding of the pyDeComp library (`DeComp/compress.py`,
`DeComp/contents.py`, `DeComp/utils.py`).  The library is a
configuration-driven command-template dispatcher: a map from mode names to
definition records (executable, argument template, extensions, required
binaries), a mode resolver that picks a mode from a filename, a template
renderer, and a subprocess runner.

Python dictionaries whose keys are mode names are embedded as association
lists `List (String × CompDef)`; Python sets of binary names are embedded as
lists compared by membership; subprocess boundaries (`Popen`) are embedded as
oracle parameters; Python exceptions are embedded with `Except String`
carrying the exception name.
-/

namespace PyDeComp

/-- One (de)compression definition record: the namedtuple created by
`utils.create_classes` with the `DEFINITION_FIELDS` field order
(handler, command, argument tokens, id string, extensions, binaries). -/
structure CompDef where
  func : String
  cmd : String
  args : List String
  id : String
  extensions : List String
  binaries : List String
deriving DecidableEq, Repr

/-- Python's `str.endswith`, on the character level: the suffix test used by
`determine_mode`.  (`String.endsWith` of the Lean core library operates on
byte positions and does not reduce inside the kernel, so the embedding uses
the underlying character lists.) -/
def pyEndsWith (s suff : String) : Bool :=
  (s.data.drop (s.data.length - suff.data.length)) == suff.data

/-- Embedding of `utils._is_available`: `self.binaries.issubset(available_binaries)`. -/
def is_available (d : CompDef) (available_binaries : List String) : Bool :=
  d.binaries.all (fun b => available_binaries.contains b)

/-- The `self._map` dictionary of `CompressMap` / `ContentsMap`:
mode name → definition record. -/
abbrev DefMap := List (String × CompDef)

/-- Embedding of `CompressMap.is_supported` / membership test `mode in list(self._map)`. -/
def is_supported (map : DefMap) (mode : String) : Bool :=
  (List.lookup mode map).isSome

/-- Embedding of `CompressMap.determine_mode` / `ContentsMap.determine_mode`: walk the
search order; for the first mode having an extension that is a suffix of
`source` and whose binaries are all available, return it; otherwise `None`.
A mode missing from `self._map` raises `KeyError` (modelled as `.error`). -/
def determine_mode (map : DefMap) (available : List String) (source : String) :
    List String → Except String (Option String)
  | [] => .ok none
  | mode :: rest =>
    match List.lookup mode map with
    | none => .error "KeyError"
    | some d =>
      if d.extensions.any (fun ext => pyEndsWith source ext && is_available d available)
      then .ok (some mode)
      else determine_mode map available source rest

/-- The specification-side predicate of the mode resolver: the mode has some
recognized extension that is a suffix of the filename, and its required
binaries are all in the available set. -/
def modeApplies (map : DefMap) (available : List String) (source : String)
    (mode : String) : Bool :=
  match List.lookup mode map with
  | some d => d.extensions.any (fun ext => pyEndsWith source ext) && is_available d available
  | none => false

theorem any_and_const {α : Type} (l : List α) (p : α → Bool) (c : Bool) :
    (l.any fun x => p x && c) = (l.any p && c) := by
  cases c with
  | false => simp
  | true => simp

/-- C1: for every filename and every configured search order (one whose
modes are all present in the definition map, as `__init__` requires), the
mode resolver returns the first mode in the search order that has some
recognized extension which is a suffix of the filename and whose required
binaries are all in the available set, and `None` when no mode qualifies. -/
theorem determine_mode_first_match (map : DefMap) (available : List String)
    (source : String) (search_order : List String)
    (hwf : ∀ mode ∈ search_order, (List.lookup mode map).isSome) :
    determine_mode map available source search_order =
      .ok (search_order.find? (modeApplies map available source)) := by
  induction search_order with
  | nil => rfl
  | cons mode rest ih =>
    have hmode : (List.lookup mode map).isSome := hwf mode (by simp)
    obtain ⟨d, hd⟩ := Option.isSome_iff_exists.mp hmode
    have hrest : ∀ m ∈ rest, (List.lookup m map).isSome := by
      intro m hm
      exact hwf m (by simp [hm])
    simp only [determine_mode, modeApplies, List.find?, hd, any_and_const]
    by_cases hmatch : ((d.extensions.any fun ext => pyEndsWith source ext) &&
        is_available d available) = true
    · simp [hmatch]
    · rw [Bool.not_eq_true] at hmatch
      simp [hmatch, ih hrest]

/-- Witness for C1 at a concrete map, search order and filename. -/
theorem determine_mode_first_match_witness :
    (∀ mode ∈ ["bzip2", "gzip"],
      (List.lookup mode
        [("bzip2", (⟨"_common", "bzip2", ["-d", "%(source)s"], "BZIP2", [".bz2"], ["bzip2"]⟩ : CompDef)),
         ("gzip", (⟨"_common", "gzip", ["-d", "%(source)s"], "GZIP", [".gz"], ["gzip"]⟩ : CompDef))]).isSome) ∧
    determine_mode
      [("bzip2", (⟨"_common", "bzip2", ["-d", "%(source)s"], "BZIP2", [".bz2"], ["bzip2"]⟩ : CompDef)),
       ("gzip", (⟨"_common", "gzip", ["-d", "%(source)s"], "GZIP", [".gz"], ["gzip"]⟩ : CompDef))]
      ["gzip"] "a.tar.gz" ["bzip2", "gzip"] = .ok (some "gzip") := by
  refine ⟨by decide, ?_⟩
  rw [determine_mode_first_match _ _ _ _ (by decide)]
  rfl

/-! ## Process runner (`utils.subcmd`) -/

/-- Embedding of `utils.BASH_CMD`. -/
def BASH_CMD : String := "/bin/bash"

/-- The argument vector `subcmd` hands to `Popen`:
`[BASH_CMD]`, then `"-x"` when debugging, then `"-c"` and the command. -/
def subcmdArgs (debug : Bool) (command : String) : List String :=
  [BASH_CMD] ++ (if debug then ["-x"] else []) ++ ["-c", command]

/-- Embedding of `utils.subcmd`: spawn the argument vector through the subprocess oracle
`run` (which yields the exit status of the spawned process for a given
argument vector and environment) and report `False` exactly when the exit
status is non-zero. -/
def subcmd (run : List String → List (String × String) → Int)
    (command : String) (env : List (String × String)) (debug : Bool) : Bool :=
  if run (subcmdArgs debug command) env ≠ 0 then false else true

/-- C2: for every command string (and environment), the process runner spawns
the command in a bash subshell (`/bin/bash -c command`) and returns `True`
iff the spawned process's exit status is zero; every non-zero exit status
yields `False`. -/
theorem subcmd_true_iff_exit_zero
    (run : List String → List (String × String) → Int)
    (command : String) (env : List (String × String)) (debug : Bool) :
    (subcmd run command env debug = true ↔ run (subcmdArgs debug command) env = 0) ∧
    ((subcmd run command env debug = false ↔ run (subcmdArgs debug command) env ≠ 0)) ∧
    subcmdArgs false command = ["/bin/bash", "-c", command] := by
  refine ⟨?_, ?_, rfl⟩ <;> unfold subcmd <;> split <;> simp_all

/-! ## Definition table (`utils.create_classes`) -/

/-- A Python value occurring in a definition tuple: a string (handler name,
command, id string), a list of strings (argument tokens, extensions), or a
set of strings (required binaries). -/
inductive DefVal
  | vstr (s : String)
  | vlist (l : List String)
  | vset (l : List String)
deriving DecidableEq, Repr

/-- Modelled from the spec: the `DEFINITION_FIELDS` field order comes from
`DeComp/definitions.py`, which is not under `src/`; the spec fixes the tuple
layout as (handler reference, executable path, argument template tokens,
identifying string, recognized extensions, required binaries).
`namedtuple._make` assigns the tuple entries to the record fields
positionally; a tuple of the wrong shape yields `none`. -/
def make6 : List DefVal → Option CompDef
  | [DefVal.vstr f, DefVal.vstr c, DefVal.vlist a, DefVal.vstr i,
     DefVal.vlist e, DefVal.vset b] => some ⟨f, c, a, i, e, b⟩
  | _ => none

/-- Embedding of `utils.create_classes`: for every mode name in the definitions
dictionary, build the namedtuple record from its definition tuple. -/
def create_classes : List (String × List DefVal) → Option DefMap
  | [] => some []
  | (n, t) :: rest =>
    match make6 t, create_classes rest with
    | some d, some m' => some ((n, d) :: m')
    | _, _ => none

theorem make6_shape {tup : List DefVal} {d : CompDef} (h : make6 tup = some d) :
    tup = [DefVal.vstr d.func, DefVal.vstr d.cmd, DefVal.vlist d.args,
      DefVal.vstr d.id, DefVal.vlist d.extensions, DefVal.vset d.binaries] := by
  unfold make6 at h
  split at h
  · obtain ⟨rfl⟩ := Option.some.injEq _ _ ▸ h
    rfl
  · exact absurd h (by simp)

theorem create_classes_cons {n : String} {t : List DefVal}
    {rest : List (String × List DefVal)} {map : DefMap}
    (h : create_classes ((n, t) :: rest) = some map) :
    ∃ d m', make6 t = some d ∧ create_classes rest = some m' ∧
      map = (n, d) :: m' := by
  rw [create_classes] at h
  cases hmk : make6 t with
  | none => rw [hmk] at h; exact absurd h (by simp)
  | some d =>
    cases hrest : create_classes rest with
    | none => rw [hmk, hrest] at h; exact absurd h (by simp)
    | some m' =>
      rw [hmk, hrest] at h
      simp only [Option.some.injEq] at h
      exact ⟨d, m', rfl, rfl, h.symm⟩

theorem create_classes_lookup :
    ∀ (definitions : List (String × List DefVal)) (map : DefMap),
      create_classes definitions = some map →
      (definitions.map Prod.fst).Nodup →
      ∀ name tup, (name, tup) ∈ definitions →
      ∃ f c a i e b, tup = [DefVal.vstr f, DefVal.vstr c, DefVal.vlist a,
          DefVal.vstr i, DefVal.vlist e, DefVal.vset b] ∧
        List.lookup name map = some ⟨f, c, a, i, e, b⟩ := by
  intro definitions
  induction definitions with
  | nil => intro map _ _ name tup h; exact absurd h (by simp)
  | cons p rest ih =>
    obtain ⟨n, t⟩ := p
    intro map hmk hkeys name tup hmem
    obtain ⟨d, m', hmkd, hrest, rfl⟩ := create_classes_cons hmk
    rw [List.map_cons, List.nodup_cons] at hkeys
    rcases List.mem_cons.mp hmem with heq | hmem'
    · have h1 : name = n := congrArg Prod.fst heq
      have h2 : tup = t := congrArg Prod.snd heq
      subst h1; subst h2
      refine ⟨d.func, d.cmd, d.args, d.id, d.extensions, d.binaries,
        make6_shape hmkd, ?_⟩
      simp [List.lookup]
    · have hne : name ≠ n := by
        intro hcontr
        subst hcontr
        exact hkeys.1 (List.mem_map.mpr ⟨(name, tup), hmem', rfl⟩)
      obtain ⟨f, c, a, i, e, b, hshape, hlook⟩ :=
        ih m' hrest hkeys.2 name tup hmem'
      refine ⟨f, c, a, i, e, b, hshape, ?_⟩
      have hb : (name == n) = false := by simpa using hne
      simp only [List.lookup, hb]
      exact hlook

/-- C6: the definition table maps every mode name of the loaded definitions
dictionary (whose keys are distinct, as in any Python dict) to a record
holding, positionally, the handler reference, executable path, argument
template tokens, identifying string, recognized extensions and required
binaries of its tuple; and the record's availability check (`enabled`, i.e.
`_is_available`) returns `True` iff the required binaries are a subset of
the available-binaries set. -/
theorem create_classes_fields_enabled
    (definitions : List (String × List DefVal)) (map : DefMap)
    (hmk : create_classes definitions = some map)
    (hkeys : (definitions.map Prod.fst).Nodup) :
    (∀ name tup, (name, tup) ∈ definitions →
      ∃ f c a i e b, tup = [DefVal.vstr f, DefVal.vstr c, DefVal.vlist a,
          DefVal.vstr i, DefVal.vlist e, DefVal.vset b] ∧
        List.lookup name map = some ⟨f, c, a, i, e, b⟩) ∧
    (∀ (d : CompDef) (available : List String),
      is_available d available = true ↔ ∀ x ∈ d.binaries, x ∈ available) := by
  refine ⟨create_classes_lookup definitions map hmk hkeys, ?_⟩
  intro d available
  simp [is_available, List.all_eq_true, List.contains]

/-- Witness for C6 at a concrete one-entry definitions dictionary. -/
theorem create_classes_fields_enabled_witness :
    (create_classes [("tbz2",
        [DefVal.vstr "_common", DefVal.vstr "tar", DefVal.vlist ["-cpf"],
         DefVal.vstr "TBZ2", DefVal.vlist [".tbz2"], DefVal.vset ["tar"]])] =
      some [("tbz2", (⟨"_common", "tar", ["-cpf"], "TBZ2", [".tbz2"], ["tar"]⟩ : CompDef))]) ∧
    ((∀ name tup, (name, tup) ∈ [("tbz2",
        [DefVal.vstr "_common", DefVal.vstr "tar", DefVal.vlist ["-cpf"],
         DefVal.vstr "TBZ2", DefVal.vlist [".tbz2"], DefVal.vset ["tar"]])] →
      ∃ f c a i e b, tup = [DefVal.vstr f, DefVal.vstr c, DefVal.vlist a,
          DefVal.vstr i, DefVal.vlist e, DefVal.vset b] ∧
        List.lookup name
          [("tbz2", (⟨"_common", "tar", ["-cpf"], "TBZ2", [".tbz2"], ["tar"]⟩ : CompDef))] =
          some ⟨f, c, a, i, e, b⟩) ∧
    (∀ (d : CompDef) (available : List String),
      is_available d available = true ↔ ∀ x ∈ d.binaries, x ∈ available)) :=
  ⟨by decide,
   create_classes_fields_enabled _ _ (by decide) (by decide)⟩

/-! ## Availability prober (`utils.check_available`) -/

/-- Python `str.split(sep)` for a single-character separator, on the
character level (includes the empty pieces Python produces). -/
def splitOnChar (c : Char) : List Char → List (List Char)
  | [] => [[]]
  | a :: rest =>
    match splitOnChar c rest with
    | [] => [[]]
    | h :: t => if a = c then [] :: h :: t else (a :: h) :: t

/-- Embedding of `x.rsplit('/', 1)[1]`: the part of `x` after its last `/`; `none` models
the `IndexError` raised when `x` holds no `/` (the split yields one part). -/
def rsplitSlash1 (x : List Char) : Option (List Char) :=
  let parts := splitOnChar '/' x
  if 2 ≤ parts.length then parts.getLast? else none

/-- The list comprehension of `check_available`:
`[x.rsplit('/', 1)[1] for x in lines]`, with any `IndexError` propagated. -/
def collectBasenames : List (List Char) → Option (List (List Char))
  | [] => some []
  | x :: rest =>
    match rsplitSlash1 x, collectBasenames rest with
    | some b, some bs => some (b :: bs)
    | _, _ => none

/-- Embedding of `utils.check_available`: run `which` over the requested commands through
the subprocess oracle `probe` (which yields the captured stdout of a given
argument vector, or `none` for the `OSError` branch, where the code falls
back to an empty stdout), split the stdout into lines, and collect
`line.rsplit('/', 1)[1]` for every non-empty line.  The Python `set(...)` is
embedded as the list of collected names compared by membership; a `none`
result models the `IndexError` on a slash-free non-empty line. -/
def check_available (probe : List String → Option String)
    (commands : List String) : Option (List String) :=
  let cmd := ["which"] ++ commands
  let stdout := ((probe cmd).getD "").data
  let lines := (splitOnChar '\n' stdout).filter (fun x => x ≠ [])
  (collectBasenames lines).map (fun l => l.map String.mk)

/-- Specification-side base name: the final `/`-separated component. -/
def baseName (p : String) : String :=
  String.mk ((splitOnChar '/' p.data).getLastD [])

theorem splitOnChar_ne_nil (c : Char) (l : List Char) : splitOnChar c l ≠ [] := by
  cases l with
  | nil => simp [splitOnChar]
  | cons a rest =>
    rw [splitOnChar]
    cases h : splitOnChar c rest with
    | nil => simp [h]
    | cons x t =>
      simp only [h]
      split <;> simp

theorem splitOnChar_sep_append (c : Char) (p rest : List Char) (hp : c ∉ p) :
    splitOnChar c (p ++ c :: rest) = p :: splitOnChar c rest := by
  induction p with
  | nil =>
    rw [List.nil_append, splitOnChar]
    cases h : splitOnChar c rest with
    | nil => exact absurd h (splitOnChar_ne_nil c rest)
    | cons x t => simp
  | cons a p' ih =>
    have ha : a ≠ c := by
      intro hcontr
      exact hp (by simp [hcontr])
    have hp' : c ∉ p' := fun h => hp (by simp [h])
    rw [List.cons_append, splitOnChar, ih hp']
    simp [ha]

theorem splitOnChar_join (c : Char) (paths : List (List Char))
    (h : ∀ p ∈ paths, c ∉ p) :
    splitOnChar c ((paths.map (fun p => p ++ [c])).flatten) = paths ++ [[]] := by
  induction paths with
  | nil => simp [splitOnChar]
  | cons p rest ih =>
    rw [List.map_cons, List.flatten_cons, List.append_assoc, List.singleton_append,
      splitOnChar_sep_append c p _ (h p (by simp)),
      ih (fun q hq => h q (by simp [hq]))]
    rfl

theorem splitOnChar_length_of_mem (c : Char) (l : List Char) (h : c ∈ l) :
    2 ≤ (splitOnChar c l).length := by
  induction l with
  | nil => exact absurd h (by simp)
  | cons a rest ih =>
    rw [splitOnChar]
    cases hs : splitOnChar c rest with
    | nil => exact absurd hs (splitOnChar_ne_nil c rest)
    | cons x t =>
      by_cases hac : a = c
      · simp [hac]
      · have hrest : c ∈ rest := by
          rcases List.mem_cons.mp h with h1 | h2
          · exact absurd h1.symm hac
          · exact h2
        have := ih hrest
        rw [hs] at this
        simp only [if_neg hac]
        simpa using this

theorem rsplitSlash1_eq_baseName (p : String) (h : '/' ∈ p.data) :
    rsplitSlash1 p.data = some (baseName p).data := by
  unfold rsplitSlash1 baseName
  rw [if_pos (splitOnChar_length_of_mem '/' p.data h)]
  have hne := splitOnChar_ne_nil '/' p.data
  rw [List.getLastD_eq_getLast? , List.getLast?_eq_getLast _ hne]
  simp

theorem collectBasenames_of_slash (lines : List (List Char))
    (h : ∀ x ∈ lines, '/' ∈ x) :
    collectBasenames lines =
      some (lines.map (fun x => (baseName (String.mk x)).data)) := by
  induction lines with
  | nil => rfl
  | cons x rest ih =>
    rw [collectBasenames]
    have hx : rsplitSlash1 x = some (baseName (String.mk x)).data := by
      have := rsplitSlash1_eq_baseName (String.mk x) (by simpa using h x (by simp))
      simpa using this
    rw [hx, ih (fun q hq => h q (by simp [hq]))]
    simp

/-- C5: feeding `check_available` the stdout `which` produces for a list of
found executable paths (one non-empty `/`-containing path per line) yields
exactly the base names (final path components) of those paths, as a set
(membership characterisation); and when the probe itself fails with
`OSError`, it yields the empty set. -/
theorem check_available_basenames (commands : List String) (paths : List String)
    (hne : ∀ p ∈ paths, p.data ≠ [])
    (hnl : ∀ p ∈ paths, ('\n') ∉ p.data)
    (hsl : ∀ p ∈ paths, '/' ∈ p.data) :
    (check_available
        (fun _ => some (String.mk ((paths.map (fun p => p.data ++ ['\n'])).flatten)))
        commands = some (paths.map baseName)) ∧
    (∀ b, b ∈ paths.map baseName ↔ ∃ p ∈ paths, baseName p = b) ∧
    check_available (fun _ => none) commands = some [] := by
  refine ⟨?_, ?_, rfl⟩
  · unfold check_available
    have hjoin : splitOnChar '\n'
        (String.mk ((paths.map (fun p => p.data ++ ['\n'])).flatten)).data =
        paths.map String.data ++ [[]] := by
      have := splitOnChar_join '\n' (paths.map String.data)
        (by intro q hq; obtain ⟨p, hp, rfl⟩ := List.mem_map.mp hq; exact hnl p hp)
      rw [List.map_map] at this
      exact this
    simp only [Option.getD_some, hjoin]
    have hfilter : (paths.map String.data ++ [[]]).filter (fun x => x ≠ []) =
        paths.map String.data := by
      rw [List.filter_append]
      have h1 : (paths.map String.data).filter (fun x => x ≠ []) =
          paths.map String.data := by
        rw [List.filter_eq_self]
        intro a ha
        obtain ⟨p, hp, rfl⟩ := List.mem_map.mp ha
        simpa using hne p hp
      rw [h1]
      simp
    rw [hfilter, collectBasenames_of_slash _
      (by intro x hx; obtain ⟨p, hp, rfl⟩ := List.mem_map.mp hx; exact hsl p hp)]
    simp [Function.comp]
  · intro b
    simp [List.mem_map]

/-- Witness for C5 at a concrete `which` output. -/
theorem check_available_basenames_witness :
    (∀ p ∈ ["/usr/bin/tar", "/bin/gzip"], String.data p ≠ []) ∧
    check_available
      (fun _ => some (String.mk
        (([("/usr/bin/tar" : String), "/bin/gzip"].map
          (fun p => p.data ++ ['\n'])).flatten)))
      ["tar", "gzip", "lbzip2"] = some ["tar", "gzip"] := by
  refine ⟨by decide, ?_⟩
  have h := (check_available_basenames ["tar", "gzip", "lbzip2"]
    ["/usr/bin/tar", "/bin/gzip"] (by decide) (by decide) (by decide)).1
  rw [h]
  rfl

/-! ## Parameter dictionaries (`CompressMap.create_infodict`) -/

/-- The `other_options` value: Python `None`, a string, or an iterable of
strings. -/
inductive OtherOpts
  | noneOpt
  | str (s : String)
  | list (l : List String)
deriving DecidableEq, Repr

/-- The dictionary built by `CompressMap.create_infodict`, with its ten fixed
keys (the Python key `auto-ext` is the `autoExt` field). -/
structure Infodict where
  source : Option String
  destination : Option String
  basedir : Option String
  filename : String
  arch : String
  mode : Option String
  autoExt : Bool
  other_options : OtherOpts
  comp_prog : String
  decomp_opt : String
deriving DecidableEq, Repr

/-- Python truthiness of an optional string (`None` and `''` are falsy). -/
def truthyOpt : Option String → Bool
  | none => false
  | some s => !s.data.isEmpty

/-- Embedding of `CompressMap.create_infodict`: pack the parameters into the dictionary,
with `'arch': arch or ''` and `'mode': mode or self.mode`. -/
def create_infodict (selfMode : Option String) (comp_prog decomp_opt : String)
    (source destination basedir : Option String) (filename : String)
    (mode : Option String) (auto_extension : Bool) (arch : Option String)
    (other_options : OtherOpts) : Infodict :=
  { source := source
    destination := destination
    basedir := basedir
    filename := filename
    arch := if truthyOpt arch then arch.getD "" else ""
    mode := if truthyOpt mode then mode else selfMode
    autoExt := auto_extension
    other_options := other_options
    comp_prog := comp_prog
    decomp_opt := decomp_opt }

/-- Python's `' '.join` (`str.join` restricted to lists). -/
def pyJoin (sep : String) : List String → String
  | [] => ""
  | [x] => x
  | x :: xs => x ++ sep ++ pyJoin sep xs

/-- Python `str()` of an optional string (`None` prints as `None`). -/
def pyStrOpt : Option String → String
  | none => "None"
  | some s => s

/-- Python `str()` of an `other_options` value (a list prints with quoted
elements; quote escaping inside elements is not modelled, as no configured
template substitutes `%(other_options)s`). -/
def pyStrOther : OtherOpts → String
  | .noneOpt => "None"
  | .str s => s
  | .list l => "[" ++ pyJoin ", " (l.map (fun s => "'" ++ s ++ "'")) ++ "]"

/-- Python `str()` of a boolean. -/
def pyStrBool : Bool → String
  | true => "True"
  | false => "False"

/-- The dictionary lookup backing `'...' % cmdinfo` for a dictionary built
by `create_infodict`: `some` of the `str()` of the stored value for the ten
keys, `none` (a `KeyError`) for any other key. -/
def infodictLookup (d : Infodict) : String → Option String
  | "source" => some (pyStrOpt d.source)
  | "destination" => some (pyStrOpt d.destination)
  | "basedir" => some (pyStrOpt d.basedir)
  | "filename" => some d.filename
  | "arch" => some d.arch
  | "mode" => some (pyStrOpt d.mode)
  | "auto-ext" => some (pyStrBool d.autoExt)
  | "other_options" => some (pyStrOther d.other_options)
  | "comp_prog" => some d.comp_prog
  | "decomp_opt" => some d.decomp_opt
  | _ => none

/-! ## The `%`-template renderer -/

/-- Parser state of the `%`-formatting scan. -/
inductive FmtState
  | plain
  | percent
  | key (acc : List Char)
  | conv (key : List Char)
deriving DecidableEq, Repr

/-- The scan of Python `%`-formatting with a dictionary, restricted to the
`%(key)s` mapping form the definitions use: `%(key)s` is replaced by the
dictionary value for `key` (`none` models the `KeyError` for a missing key),
`%%` is an escaped percent, and any other conversion or a dangling `%` is a
(modelled) failure. -/
def pyFormatGo (lookup : String → Option String) : FmtState → List Char → Option (List Char)
  | .plain, [] => some []
  | .plain, c :: rest =>
    if c = '%' then pyFormatGo lookup .percent rest
    else (pyFormatGo lookup .plain rest).map (fun t => c :: t)
  | .percent, [] => none
  | .percent, c :: rest =>
    if c = '%' then (pyFormatGo lookup .plain rest).map (fun t => '%' :: t)
    else if c = '(' then pyFormatGo lookup (.key []) rest
    else none
  | .key _, [] => none
  | .key acc, c :: rest =>
    if c = ')' then pyFormatGo lookup (.conv acc) rest
    else pyFormatGo lookup (.key (acc ++ [c])) rest
  | .conv _, [] => none
  | .conv acc, c :: rest =>
    if c = 's' then
      match lookup (String.mk acc) with
      | some v => (pyFormatGo lookup .plain rest).map (fun t => v.data ++ t)
      | none => none
    else none

/-- Embedding of `template % cmdinfo` on the character level. -/
def pyFormat (lookup : String → Option String) (l : List Char) : Option (List Char) :=
  pyFormatGo lookup .plain l

/-! ## `CompressMap._sub_other_options` -/

/-- Embedding of `CompressMap._sub_other_options`: replace the first `other_options`
token by the options (a string as-is, an iterable joined with spaces), or
remove it when the options are falsy; then drop empty argument strings. -/
def sub_other_options (args : List String) (oo : OtherOpts) : List String :=
  let cmdargs :=
    if args.contains "other_options" then
      match oo with
      | .str s =>
        if s.data.isEmpty then args.erase "other_options"
        else args.set (args.indexOf "other_options") s
      | .list l =>
        if l.isEmpty then args.erase "other_options"
        else args.set (args.indexOf "other_options") (pyJoin " " l)
      | .noneOpt => args.erase "other_options"
    else args
  cmdargs.filter (fun x => !x.data.isEmpty)

/-- The specification-side `other_options` step: walk the token list and, at
the placeholder token, substitute the options string (an iterable joined
with spaces) or drop the token when the options are empty. -/
def specOtherOptions (oo : OtherOpts) : List String → List String
  | [] => []
  | a :: rest =>
    if a = "other_options" then
      match oo with
      | .str s => if s.data.isEmpty then rest else s :: rest
      | .list l => if l.isEmpty then rest else pyJoin " " l :: rest
      | .noneOpt => rest
    else a :: specOtherOptions oo rest

/-! ## `CompressMap._common`, `_sqfs`, `_run` -/

/-- The extensions list of a mode (`self._map[mode].extensions`); only
evaluated behind an `is_supported` guard. -/
def extsOf (map : DefMap) (mode : String) : List String :=
  match List.lookup mode map with
  | some d => d.extensions
  | none => []

/-- Embedding of `CompressMap.extension` in its default single-extension form: the first
recognized extension of a supported mode, `''` for an unsupported one;
`IndexError` when a supported mode has an empty extensions list. -/
def extension_first (map : DefMap) (mode : String) : Except String String :=
  match List.lookup mode map with
  | some d =>
    match d.extensions with
    | [] => .error "IndexError"
    | e :: _ => .ok e
  | none => .ok ""

/-- The `auto-ext` step of `_common` / `_sqfs` on the copied dictionary:
append the extension separator and the mode's default extension to
`filename` when `auto-ext` is set. -/
def applyAutoExt (map : DefMap) (sep : String) (info : Infodict) (mo : String) :
    Except String Infodict :=
  if info.autoExt then
    match extension_first map mo with
    | .error e => .error e
    | .ok ext => .ok { info with filename := info.filename ++ sep ++ ext }
  else .ok info

/-- Embedding of `CompressMap._common` up to the subprocess boundary, with the two
dictionary objects of the call made explicit.  The body binds
`cmdinfo = infodict.copy()` and every write (`cmdinfo['filename'] += ...`)
targets the copy, which the embedding reflects by only rebinding `cmdinfo`;
the pair returned is (outcome, final value of the caller's `infodict`
object).  In the outcome, `ok none` models `return False` with no command
spawned, `ok (some args)` models handing the rendered command line to
`subcmd`, and `.error` an uncaught Python exception (a failed `%`
substitution is mapped to `KeyError`). -/
def common_trace (map : DefMap) (sep : String) (infodict : Infodict) :
    Except String (Option String) × Infodict :=
  match infodict.mode with
  | none => (.ok none, infodict)
  | some mo =>
    if mo.data.isEmpty || !is_supported map mo then (.ok none, infodict)
    else
      match List.lookup mo map with
      | none => (.ok none, infodict)
      | some cmdlist =>
        let cmdinfo := infodict
        match applyAutoExt map sep cmdinfo mo with
        | .error e => (.error e, infodict)
        | .ok cmdinfo =>
          let cmdargs := sub_other_options cmdlist.args cmdinfo.other_options
          match pyFormat (infodictLookup cmdinfo) (pyJoin " " cmdargs).data with
          | some opts => (.ok (some (pyJoin " " [cmdlist.cmd, String.mk opts])), infodict)
          | none => (.error "KeyError", infodict)

/-- The outcome of `_common` (first component of the traced call). -/
def common_cmd (map : DefMap) (sep : String) (infodict : Infodict) :
    Except String (Option String) :=
  (common_trace map sep infodict).1

/-- Embedding of `CompressMap._sqfs` up to the subprocess boundary, traced like
`common_trace`; when `infodict['arch']` is falsy the tokens `-Xbcj` and
`%(arch)s` are removed from the argument list (`list.remove` raises
`ValueError` when the token is absent). -/
def sqfs_trace (map : DefMap) (sep : String) (infodict : Infodict) :
    Except String (Option String) × Infodict :=
  match infodict.mode with
  | none => (.ok none, infodict)
  | some mo =>
    if mo.data.isEmpty || !is_supported map mo then (.ok none, infodict)
    else
      match List.lookup mo map with
      | none => (.ok none, infodict)
      | some cmdlist =>
        let cmdinfo := infodict
        match applyAutoExt map sep cmdinfo mo with
        | .error e => (.error e, infodict)
        | .ok cmdinfo =>
          let sqfsOpts := sub_other_options cmdlist.args cmdinfo.other_options
          let removed : Except String (List String) :=
            if infodict.arch.data.isEmpty then
              if sqfsOpts.contains "-Xbcj" then
                let l1 := sqfsOpts.erase "-Xbcj"
                if l1.contains "%(arch)s" then .ok (l1.erase "%(arch)s")
                else .error "ValueError"
              else .error "ValueError"
            else .ok sqfsOpts
          match removed with
          | .error e => (.error e, infodict)
          | .ok opts' =>
            match pyFormat (infodictLookup cmdinfo) (pyJoin " " opts').data with
            | some opts => (.ok (some (pyJoin " " [cmdlist.cmd, String.mk opts])), infodict)
            | none => (.error "KeyError", infodict)

/-- The outcome of `_sqfs` (first component of the traced call). -/
def sqfs_cmd (map : DefMap) (sep : String) (infodict : Infodict) :
    Except String (Option String) :=
  (sqfs_trace map sep infodict).1

/-- A handler as `_run` resolves it via `getattr(self, func)`. -/
abbrev Handler := DefMap → String → Infodict → Except String (Option String)

/-- The attribute table `_run` consults for the handler names string-valued
definitions use in `compress.py`. -/
def default_handlers : String → Option Handler
  | "_common" => some common_cmd
  | "_sqfs" => some sqfs_cmd
  | _ => none

/-- Embedding of `CompressMap._run` up to the subprocess boundary: gate only on
`is_supported`, resolve the handler attribute named by the definition's
`func` field and delegate.  `getattr(self, func, None)` returning `None`
makes the call `func(infodict)` raise `TypeError`; an `AttributeError`
raised inside the handler is caught and turned into `return False`. -/
def run_dispatch (handlers : String → Option Handler) (map : DefMap) (sep : String)
    (infodict : Infodict) : Except String (Option String) :=
  match infodict.mode with
  | none => .ok none
  | some mo =>
    if !is_supported map mo then .ok none
    else
      match List.lookup mo map with
      | none => .ok none
      | some d =>
        match handlers d.func with
        | some h =>
          match h map sep infodict with
          | .error "AttributeError" => .ok none
          | r => r
        | none => .error "TypeError"

/-! ## `CompressMap._extract` -/

/-- Outcome of `_extract` up to the `_run` delegation: an uncaught
exception, a direct return, or the call `self._run(infodict)` with the
(possibly updated) dictionary. -/
inductive ExtractOutcome
  | exn (name : String)
  | ret (b : Bool)
  | runCall (d : Infodict)
deriving DecidableEq, Repr

/-- Lines 141-142 of `_extract`: replace a `None` mode (and only `None`,
the test is `in [None]`) by `self.mode or 'auto'`. -/
def defaultMode (selfMode : Option String) (d : Infodict) : Infodict :=
  if d.mode = none then
    { d with mode := if truthyOpt selfMode then selfMode else some "auto" }
  else d

/-- Embedding of `CompressMap._extract` up to the `_run` delegation.  With
`infodict=None` the body reads `infodict['mode']` (line 130, when the `mode`
parameter is falsy) or `infodict['other_options']` (line 137) before the
`if not infodict` guard, raising `TypeError`; a keyed dictionary argument is
always truthy, so the guarded `create_infodict` call is dead and the
`source`/`destination`/`other_options` parameters are never consulted.
With mode `'auto'` the mode is resolved by `determine_mode` on
`infodict['source']` and a falsy result returns `False`. -/
def extract (loaded_type : String) (selfMode : Option String) (map : DefMap)
    (available : List String) (search_order : List String)
    (infodict : Option Infodict) (_mode : Option String) : ExtractOutcome :=
  if loaded_type ≠ "Decompression" then .ret false
  else
    match infodict with
    | none => .exn "TypeError"
    | some d =>
      let d1 := defaultMode selfMode d
      if d1.mode = some "auto" then
        match d1.source with
        | none => .exn "AttributeError"
        | some src =>
          match determine_mode map available src search_order with
          | .error e => .exn e
          | .ok none => .ret false
          | .ok (some mm) =>
            if mm.data.isEmpty then .ret false
            else .runCall { d1 with mode := some mm }
      else .runCall d1

/-! ## `CompressMap.search_order_extensions` -/

/-- The inner loop of `search_order_extensions` over one mode's extensions,
carrying the `seen` set (as a list probed by membership) and the
accumulated extension list. -/
def soe_inner (seen ext_list : List String) : List String → List String × List String
  | [] => (seen, ext_list)
  | ext :: rest =>
    if seen.contains ext then soe_inner seen ext_list rest
    else soe_inner (ext :: seen) (ext_list ++ [ext]) rest

/-- The outer loop of `search_order_extensions` over the search order,
skipping unsupported modes. -/
def soe_outer (map : DefMap) (seen ext_list : List String) : List String → List String
  | [] => ext_list
  | mode :: rest =>
    if is_supported map mode then
      let p := soe_inner seen ext_list (extsOf map mode)
      soe_outer map p.1 p.2 rest
    else soe_outer map seen ext_list rest

/-- Embedding of `CompressMap.search_order_extensions`. -/
def search_order_extensions (map : DefMap) (search_order : List String) : List String :=
  soe_outer map [] [] search_order

/-- The `seen` set after one pass of the dedup loop. -/
def accSeen (seen : List String) : List String → List String
  | [] => seen
  | x :: xs => if seen.contains x then accSeen seen xs else accSeen (x :: seen) xs

/-- The dedup loop relative to an initial `seen` set. -/
def firstOccAux (seen : List String) : List String → List String
  | [] => []
  | x :: xs =>
    if seen.contains x then firstOccAux seen xs
    else x :: firstOccAux (x :: seen) xs

/-- Specification-side first-occurrence deduplication: keep each element at
its first occurrence, in encounter order. -/
def firstOccurrences : List String → List String
  | [] => []
  | x :: xs => x :: firstOccurrences (xs.filter (fun y => y ≠ x))
termination_by l => l.length
decreasing_by
  simp only [List.length_cons]
  exact Nat.lt_succ_of_le (List.length_filter_le _ _)

/-! ## Frame property of `_common` / `_sqfs` (C9) -/

/-- C9: `_common` and `_sqfs` never modify the caller's `infodict`
dictionary: the body copies it into `cmdinfo` and every mutation (appending
the auto extension to `filename`, substituting `other_options`) targets the
copy, so the caller's dictionary is unchanged whatever the outcome — and
the traced outcome agrees with the outcome-only embedding. -/
theorem common_sqfs_preserve_infodict (map : DefMap) (sep : String)
    (infodict : Infodict) :
    (common_trace map sep infodict).2 = infodict ∧
    (sqfs_trace map sep infodict).2 = infodict ∧
    (common_trace map sep infodict).1 = common_cmd map sep infodict ∧
    (sqfs_trace map sep infodict).1 = sqfs_cmd map sep infodict := by
  refine ⟨?_, ?_, rfl, rfl⟩
  · unfold common_trace
    repeat' first
      | rfl
      | dsimp only
      | split
  · unfold sqfs_trace
    repeat' first
      | rfl
      | dsimp only
      | split

/-! ## The `infodict=None` calling convention of `_extract` (C8) -/

/-- C8 counterexample: on an instance whose loaded type is not
`Decompression` (e.g. a compression-loaded `CompressMap`), calling
`_extract` with `infodict` omitted returns `False` at the loaded-type guard
(line 128) before any `infodict` subscript, so it does not raise
`TypeError`: the claim's universal quantification over every call fails. -/
theorem extract_no_infodict_not_always_type_error :
    extract "Compression" (some "tbz2") [] [] [] none (some "tbz2") =
      ExtractOutcome.ret false ∧
    ExtractOutcome.ret false ≠ ExtractOutcome.exn "TypeError" := by
  exact ⟨rfl, by decide⟩

/-- C8 (amended): on a decompression-loaded instance, every `_extract` call
that omits `infodict` raises `TypeError` before the `if not infodict` check
that would build the dictionary from the keyword parameters, because
`infodict['mode']` (line 130, when the `mode` parameter is falsy) or
`infodict['other_options']` (line 137) is subscripted on `None` first; the
documented optional source/destination/mode keyword calling convention is
unusable for decompression. -/
theorem extract_none_infodict_type_error (selfMode : Option String)
    (map : DefMap) (available : List String) (search_order : List String)
    (mode : Option String) :
    extract "Decompression" selfMode map available search_order none mode =
      ExtractOutcome.exn "TypeError" := rfl

/-! ## What `_run` / `_common` actually gate on (C3) -/

/-- C3 counterexample: mode `foo` is supported by the loaded definitions but
its required binary is not in the available set; `_run` dispatching to
`_common` still renders the command line and spawns the subprocess — neither
function consults binary availability. -/
theorem run_spawns_without_available_binary :
    is_available
      (⟨"_common", "mycmd", ["%(source)s"], "FOO", [".foo"], ["missingbin"]⟩ : CompDef)
      [] = false ∧
    run_dispatch default_handlers
      [("foo",
        (⟨"_common", "mycmd", ["%(source)s"], "FOO", [".foo"], ["missingbin"]⟩ : CompDef))]
      "."
      (create_infodict none "" "" (some "/tmp/x.foo") none none ""
        (some "foo") false none OtherOpts.noneOpt) =
      .ok (some "mycmd /tmp/x.foo") := by
  exact ⟨rfl, rfl⟩

/-- C3 (amended): before a compression or extraction command is run, the
dispatcher verifies only that the mode is set and supported in the loaded
definitions map; binary availability is not checked by `_run`/`_common`/
`_sqfs` (it is consulted only at construction time and inside
`determine_mode`).  Whenever one of them hands a command to `subcmd`, the
mode was non-empty and supported — and nothing more; conversely an unset or
unsupported mode spawns nothing and returns `False`. -/
theorem spawn_gate_is_supported_only (map : DefMap) (sep : String)
    (infodict : Infodict) :
    (∀ s, common_cmd map sep infodict = .ok (some s) →
      ∃ mo, infodict.mode = some mo ∧ mo.data.isEmpty = false ∧
        is_supported map mo = true) ∧
    (∀ s, sqfs_cmd map sep infodict = .ok (some s) →
      ∃ mo, infodict.mode = some mo ∧ mo.data.isEmpty = false ∧
        is_supported map mo = true) ∧
    (∀ handlers s, run_dispatch handlers map sep infodict = .ok (some s) →
      ∃ mo, infodict.mode = some mo ∧ is_supported map mo = true) ∧
    (∀ mo, infodict.mode = some mo →
      mo.data.isEmpty = true ∨ is_supported map mo = false →
      common_cmd map sep infodict = .ok none) := by
  refine ⟨?_, ?_, ?_, ?_⟩
  · intro s h
    unfold common_cmd common_trace at h
    cases hm : infodict.mode with
    | none => simp [hm] at h
    | some mo =>
      simp only [hm] at h
      refine ⟨mo, rfl, ?_⟩
      by_cases hc : (mo.data.isEmpty || !is_supported map mo) = true
      · rw [if_pos hc] at h; simp at h
      · simp only [Bool.or_eq_true, Bool.not_eq_true'] at hc
        push_neg at hc
        exact ⟨by simpa using hc.1, by simpa using hc.2⟩
  · intro s h
    unfold sqfs_cmd sqfs_trace at h
    cases hm : infodict.mode with
    | none => simp [hm] at h
    | some mo =>
      simp only [hm] at h
      refine ⟨mo, rfl, ?_⟩
      by_cases hc : (mo.data.isEmpty || !is_supported map mo) = true
      · rw [if_pos hc] at h; simp at h
      · simp only [Bool.or_eq_true, Bool.not_eq_true'] at hc
        push_neg at hc
        exact ⟨by simpa using hc.1, by simpa using hc.2⟩
  · intro handlers s h
    unfold run_dispatch at h
    cases hm : infodict.mode with
    | none => simp [hm] at h
    | some mo =>
      simp only [hm] at h
      refine ⟨mo, rfl, ?_⟩
      by_cases hc : (!is_supported map mo) = true
      · rw [if_pos hc] at h; simp at h
      · simpa using hc
  · intro mo hm hbad
    unfold common_cmd common_trace
    simp only [hm]
    have hc : (mo.data.isEmpty || !is_supported map mo) = true := by
      rcases hbad with h1 | h1 <;> simp [h1]
    rw [if_pos hc]

/-- Witness for the amended C3 at a concrete spawning call. -/
theorem spawn_gate_is_supported_only_witness :
    ∃ mo, (create_infodict none "" "" (some "/s") none none ""
        (some "bar") false none OtherOpts.noneOpt).mode = some mo ∧
      mo.data.isEmpty = false ∧
      is_supported
        [("bar", (⟨"_common", "c", ["%(source)s"], "B", [".b"], ["b"]⟩ : CompDef))]
        mo = true :=
  (spawn_gate_is_supported_only
    [("bar", (⟨"_common", "c", ["%(source)s"], "B", [".b"], ["b"]⟩ : CompDef))] "."
    (create_infodict none "" "" (some "/s") none none ""
      (some "bar") false none OtherOpts.noneOpt)).1 "c /s" rfl

/-! ## Auto-detection in `_extract` (C7) -/

theorem defaultMode_source (selfMode : Option String) (d : Infodict) :
    (defaultMode selfMode d).source = d.source := by
  unfold defaultMode
  split <;> rfl

/-- C7: on a decompression instance, when `_extract` is invoked with a
dictionary whose mode resolves to `'auto'` (explicitly, or by a `None` mode
defaulting to `self.mode or 'auto'`), the mode is picked automatically from
the source filename via `determine_mode`; if no mode is detected the call
logs the mode error and returns `False` without delegating to `_run` (no
command is run), and otherwise it delegates with the detected mode stored
in the dictionary. -/
theorem extract_auto_uses_determine_mode (selfMode : Option String)
    (map : DefMap) (available : List String) (search_order : List String)
    (d : Infodict) (src : String) (mode : Option String)
    (hsrc : d.source = some src)
    (hauto : (defaultMode selfMode d).mode = some "auto")
    (hwf : ∀ m ∈ search_order, (List.lookup m map).isSome)
    (hkeys : ∀ m ∈ search_order, m.data.isEmpty = false) :
    extract "Decompression" selfMode map available search_order (some d) mode =
      (match search_order.find? (modeApplies map available src) with
       | none => ExtractOutcome.ret false
       | some mm =>
         ExtractOutcome.runCall { defaultMode selfMode d with mode := some mm }) := by
  unfold extract
  rw [if_neg (by simp)]
  dsimp only
  rw [if_pos hauto, defaultMode_source, hsrc]
  dsimp only
  rw [determine_mode_first_match map available src search_order hwf]
  cases hfind : search_order.find? (modeApplies map available src) with
  | none => rfl
  | some mm =>
    have hmm : mm.data.isEmpty = false :=
      hkeys mm (List.mem_of_find?_eq_some hfind)
    simp [hmm]

/-- Witness for C7 at a concrete decompression map and `auto` dictionary. -/
theorem extract_auto_uses_determine_mode_witness :
    extract "Decompression" none
      [("gzip", (⟨"_common", "gzip", ["-d", "%(source)s"], "GZIP", [".gz"], ["gzip"]⟩ : CompDef))]
      ["gzip"] ["gzip"]
      (some (create_infodict none "" "" (some "a.gz") none none ""
        (some "auto") false none OtherOpts.noneOpt)) none =
      ExtractOutcome.runCall
        { (create_infodict none "" "" (some "a.gz") none none ""
            (some "auto") false none OtherOpts.noneOpt) with mode := some "gzip" } := by
  rw [extract_auto_uses_determine_mode none _ ["gzip"] ["gzip"] _ "a.gz" none
    (by decide) (by decide) (by decide) (by decide)]
  rfl

/-! ## The template rendering pipeline (C4) -/

/-- Drop the first occurrence of `tok`. -/
def dropTok (tok : String) : List String → List String
  | [] => []
  | a :: rest => if a = tok then rest else a :: dropTok tok rest

/-- Replace the first occurrence of `tok` by `v`. -/
def swapTok (tok v : String) : List String → List String
  | [] => []
  | a :: rest => if a = tok then v :: rest else a :: swapTok tok v rest

theorem erase_eq_dropTok (tok : String) :
    ∀ args : List String, args.erase tok = dropTok tok args := by
  intro args
  induction args with
  | nil => rfl
  | cons a rest ih =>
    rw [List.erase_cons, dropTok]
    by_cases h : a = tok
    · rw [if_pos (by simpa using h), if_pos h]
    · rw [if_neg (by simpa using h), if_neg h, ih]

theorem set_indexOf_eq_swapTok (tok v : String) :
    ∀ args : List String, args.contains tok = true →
      args.set (args.indexOf tok) v = swapTok tok v args := by
  intro args
  induction args with
  | nil => intro h; simp at h
  | cons a rest ih =>
    intro h
    rw [List.indexOf_cons, swapTok]
    by_cases hat : a = tok
    · rw [if_pos hat]
      simp [hat]
    · rw [if_neg hat]
      have hb : (a == tok) = false := by simpa using hat
      rw [hb]
      have hrest : rest.contains tok = true := by
        simp only [List.contains_cons, Bool.or_eq_true] at h
        rcases h with h1 | h1
        · exact absurd (show tok = a by simpa using h1).symm hat
        · exact h1
      simp only [cond_false, List.set_cons_succ]
      rw [ih hrest]

theorem specOtherOptions_none_eq (args : List String) :
    specOtherOptions OtherOpts.noneOpt args = dropTok "other_options" args := by
  induction args with
  | nil => rfl
  | cons a rest ih =>
    rw [specOtherOptions, dropTok]
    by_cases h : a = "other_options"
    · rw [if_pos h, if_pos h]
    · rw [if_neg h, if_neg h, ih]

theorem specOtherOptions_str_eq (s : String) (args : List String) :
    specOtherOptions (OtherOpts.str s) args =
      (if s.data.isEmpty then dropTok "other_options" args
       else swapTok "other_options" s args) := by
  induction args with
  | nil => cases he : s.data.isEmpty <;> simp [specOtherOptions, dropTok, swapTok, he]
  | cons a rest ih =>
    rw [specOtherOptions]
    by_cases h : a = "other_options"
    · rw [if_pos h]
      cases he : s.data.isEmpty <;> simp [dropTok, swapTok, h, he]
    · rw [if_neg h, ih]
      cases he : s.data.isEmpty <;> simp [dropTok, swapTok, h, he]

theorem specOtherOptions_list_eq (l : List String) (args : List String) :
    specOtherOptions (OtherOpts.list l) args =
      (if l.isEmpty then dropTok "other_options" args
       else swapTok "other_options" (pyJoin " " l) args) := by
  induction args with
  | nil => cases he : l.isEmpty <;> simp [specOtherOptions, dropTok, swapTok, he]
  | cons a rest ih =>
    rw [specOtherOptions]
    by_cases h : a = "other_options"
    · rw [if_pos h]
      cases he : l.isEmpty <;> simp [dropTok, swapTok, h, he]
    · rw [if_neg h, ih]
      cases he : l.isEmpty <;> simp [dropTok, swapTok, h, he]

theorem specOtherOptions_no_tok (oo : OtherOpts) :
    ∀ args : List String, args.contains "other_options" = false →
      specOtherOptions oo args = args := by
  intro args
  induction args with
  | nil => intro _; rfl
  | cons a rest ih =>
    intro h
    have hne : a ≠ "other_options" := by
      intro hcontr
      subst hcontr
      simp [List.contains_cons] at h
    have hrest : rest.contains "other_options" = false := by
      simp only [List.contains_cons, Bool.or_eq_false_iff] at h
      exact h.2
    cases oo <;> rw [specOtherOptions, if_neg hne, ih hrest]

/-- The code's `_sub_other_options` is the specification-side walk followed
by the empty-string filter: the first `other_options` token is replaced by
the options string (an iterable joined with spaces) or dropped when the
options are empty, and empty argument strings are removed. -/
theorem sub_other_options_spec (args : List String) (oo : OtherOpts) :
    sub_other_options args oo =
      (specOtherOptions oo args).filter (fun x => !x.data.isEmpty) := by
  unfold sub_other_options
  by_cases hmem : args.contains "other_options"
  · rw [if_pos hmem]
    cases oo with
    | noneOpt =>
      dsimp only
      rw [specOtherOptions_none_eq, erase_eq_dropTok]
    | str s =>
      dsimp only
      rw [specOtherOptions_str_eq]
      by_cases he : s.data.isEmpty = true
      · rw [if_pos he, if_pos he, erase_eq_dropTok]
      · rw [if_neg he, if_neg he, set_indexOf_eq_swapTok _ _ _ hmem]
    | list l =>
      dsimp only
      rw [specOtherOptions_list_eq]
      by_cases he : l.isEmpty = true
      · rw [if_pos he, if_pos he, erase_eq_dropTok]
      · rw [if_neg he, if_neg he, set_indexOf_eq_swapTok _ _ _ hmem]
  · rw [if_neg hmem, specOtherOptions_no_tok oo args (by simpa using hmem)]

theorem mk_data (s : String) : String.mk s.data = s := rfl

/-- A successfully rendered prefix composes with the rest of the scan. -/
theorem pyFormatGo_append (lookup : String → Option String) (b : List Char) :
    ∀ (a : List Char) (st : FmtState) (ra : List Char),
      pyFormatGo lookup st a = some ra →
      pyFormatGo lookup st (a ++ b) =
        (pyFormatGo lookup .plain b).map (fun t => ra ++ t) := by
  intro a
  induction a with
  | nil =>
    intro st ra h
    cases st with
    | plain =>
      simp only [pyFormatGo, Option.some.injEq] at h
      subst h
      simp
    | percent => simp [pyFormatGo] at h
    | key acc => simp [pyFormatGo] at h
    | conv acc => simp [pyFormatGo] at h
  | cons c rest ih =>
    intro st ra h
    cases st with
    | plain =>
      rw [List.cons_append]
      rw [pyFormatGo] at h ⊢
      by_cases hc : c = '%'
      · rw [if_pos hc] at h ⊢
        exact ih _ _ h
      · rw [if_neg hc] at h ⊢
        cases hrec : pyFormatGo lookup .plain rest with
        | none => rw [hrec] at h; simp at h
        | some rb =>
          rw [hrec] at h
          simp only [Option.map_some', Option.some.injEq] at h
          rw [ih _ _ hrec]
          cases pyFormatGo lookup .plain b <;> simp [← h]
    | percent =>
      rw [List.cons_append]
      rw [pyFormatGo] at h ⊢
      by_cases hc : c = '%'
      · rw [if_pos hc] at h ⊢
        cases hrec : pyFormatGo lookup .plain rest with
        | none => rw [hrec] at h; simp at h
        | some rb =>
          rw [hrec] at h
          simp only [Option.map_some', Option.some.injEq] at h
          rw [ih _ _ hrec]
          cases pyFormatGo lookup .plain b <;> simp [← h]
      · rw [if_neg hc] at h ⊢
        by_cases hp : c = '('
        · rw [if_pos hp] at h ⊢
          exact ih _ _ h
        · rw [if_neg hp] at h
          exact absurd h (by simp)
    | key acc =>
      rw [List.cons_append]
      rw [pyFormatGo] at h ⊢
      by_cases hc : c = ')'
      · rw [if_pos hc] at h ⊢
        exact ih _ _ h
      · rw [if_neg hc] at h ⊢
        exact ih _ _ h
    | conv acc =>
      rw [List.cons_append]
      rw [pyFormatGo] at h ⊢
      by_cases hc : c = 's'
      · rw [if_pos hc] at h ⊢
        cases hl : lookup (String.mk acc) with
        | none =>
          rw [hl] at h
          dsimp only at h
          exact absurd h (by simp)
        | some v =>
          rw [hl] at h
          dsimp only at h ⊢
          cases hrec : pyFormatGo lookup .plain rest with
          | none => rw [hrec] at h; simp at h
          | some rb =>
            rw [hrec] at h
            simp only [Option.map_some', Option.some.injEq] at h
            rw [ih _ _ hrec]
            cases pyFormatGo lookup .plain b <;> simp [← h]
      · rw [if_neg hc] at h
        exact absurd h (by simp)

/-- Rendering the space-joined token list equals joining the per-token
renders with single spaces, when every token renders. -/
theorem pyFormat_pyJoin (lookup : String → Option String) :
    ∀ tokens : List String,
      (∀ t ∈ tokens, (pyFormat lookup t.data).isSome) →
      pyFormat lookup (pyJoin " " tokens).data =
        some (pyJoin " " (tokens.map
          (fun t => String.mk ((pyFormat lookup t.data).getD [])))).data := by
  intro tokens
  induction tokens with
  | nil => intro _; rfl
  | cons x xs ih =>
    intro h
    obtain ⟨rx, hrx⟩ := Option.isSome_iff_exists.mp (h x (by simp))
    cases xs with
    | nil =>
      show pyFormat lookup (pyJoin " " [x]).data = _
      rw [show pyJoin " " [x] = x from rfl]
      rw [hrx]
      simp [pyJoin, hrx]
    | cons y ys =>
      have hrest := ih (fun t ht => h t (by simp [ht]))
      rw [show pyJoin " " (x :: y :: ys) = x ++ " " ++ pyJoin " " (y :: ys) from rfl]
      rw [show (x ++ " " ++ pyJoin " " (y :: ys)).data =
        x.data ++ (' ' :: (pyJoin " " (y :: ys)).data) by
          rw [String.data_append, String.data_append]
          simp]
      unfold pyFormat at hrx ⊢
      rw [pyFormatGo_append lookup _ x.data .plain rx hrx]
      rw [show pyFormatGo lookup .plain (' ' :: (pyJoin " " (y :: ys)).data) =
        (pyFormatGo lookup .plain (pyJoin " " (y :: ys)).data).map
          (fun t => ' ' :: t) by
          rw [pyFormatGo]
          rw [if_neg (by decide)]]
      unfold pyFormat at hrest
      rw [hrest]
      simp only [Option.map_some', Option.some.injEq, List.map_cons]
      rw [hrx]
      simp only [Option.getD_some]
      rw [show ∀ (a b : String) (l : List String),
          pyJoin " " (a :: b :: l) = a ++ " " ++ pyJoin " " (b :: l)
        from fun _ _ _ => rfl]
      rw [String.data_append, String.data_append]
      simp [mk_data]

theorem applyAutoExt_other_options {map : DefMap} {sep : String}
    {info c : Infodict} {mo : String}
    (h : applyAutoExt map sep info mo = .ok c) :
    c.other_options = info.other_options := by
  unfold applyAutoExt at h
  split at h
  · split at h
    · exact absurd h (by simp)
    · simp only [Except.ok.injEq] at h
      subst h
      rfl
  · simp only [Except.ok.injEq] at h
    subst h
    rfl

/-- C4: for a mode's argument template and a parameter dictionary built by
`create_infodict`, `_common` (with `_sub_other_options`) produces the fully
substituted command line: the (first) `other_options` placeholder token is
replaced by the supplied options (a string as-is, an iterable joined with
spaces) or removed when the options are empty, empty argument strings are
dropped, every `%(key)s`-style placeholder of the remaining tokens is
substituted from the dictionary (the copy `cmdinfo`, whose `filename`
carries the auto extension when enabled), the arguments are joined with
single spaces, and the mode's executable name is prefixed. -/
theorem common_renders_template (map : DefMap) (sep : String)
    (selfMode : Option String) (comp_prog decomp_opt : String)
    (source destination basedir : Option String) (filename : String)
    (mode : Option String) (auto_extension : Bool) (arch : Option String)
    (other_options : OtherOpts) (info cmdinfo : Infodict) (mo : String)
    (cmdlist : CompDef)
    (hinfo : info = create_infodict selfMode comp_prog decomp_opt source
      destination basedir filename mode auto_extension arch other_options)
    (hmode : info.mode = some mo)
    (hmo : mo.data.isEmpty = false)
    (hlook : List.lookup mo map = some cmdlist)
    (hauto : applyAutoExt map sep info mo = .ok cmdinfo)
    (hrender : ∀ t ∈ (specOtherOptions other_options cmdlist.args).filter
        (fun x => !x.data.isEmpty),
      (pyFormat (infodictLookup cmdinfo) t.data).isSome) :
    common_cmd map sep info =
      .ok (some (cmdlist.cmd ++ " " ++ pyJoin " "
        (((specOtherOptions other_options cmdlist.args).filter
            (fun x => !x.data.isEmpty)).map
          (fun t => String.mk
            ((pyFormat (infodictLookup cmdinfo) t.data).getD []))))) := by
  have hoo : cmdinfo.other_options = other_options := by
    rw [applyAutoExt_other_options hauto, hinfo]
    rfl
  have hsup : is_supported map mo = true := by
    simp [is_supported, hlook]
  unfold common_cmd common_trace
  simp only [hmode]
  rw [if_neg (by simp [hmo, hsup])]
  simp only [hlook]
  try dsimp only
  simp only [hauto]
  try dsimp only
  rw [hoo, sub_other_options_spec]
  rw [pyFormat_pyJoin (infodictLookup cmdinfo) _ hrender]
  try dsimp only
  try rw [show ∀ a b : String, pyJoin " " [a, b] = a ++ " " ++ b
    from fun _ _ => rfl]
  try rw [mk_data]

/-- Witness for C4 at a concrete template, mode and dictionary. -/
theorem common_renders_template_witness :
    common_cmd
      [("tbz2", (⟨"_common", "tar",
        ["-cpjf", "%(filename)s", "other_options", "", "-C", "%(basedir)s", "%(source)s"],
        "TBZ2", [".tbz2"], ["tar"]⟩ : CompDef))]
      "."
      (create_infodict (some "tbz2") "comp" "dec" (some "src") none
        (some "/base") "out" none false none (OtherOpts.str "-v")) =
      .ok (some "tar -cpjf out -v -C /base src") := by
  rw [common_renders_template
    [("tbz2", (⟨"_common", "tar",
      ["-cpjf", "%(filename)s", "other_options", "", "-C", "%(basedir)s", "%(source)s"],
      "TBZ2", [".tbz2"], ["tar"]⟩ : CompDef))]
    "." (some "tbz2") "comp" "dec" (some "src") none (some "/base") "out"
    none false none (OtherOpts.str "-v")
    (create_infodict (some "tbz2") "comp" "dec" (some "src") none
      (some "/base") "out" none false none (OtherOpts.str "-v"))
    (create_infodict (some "tbz2") "comp" "dec" (some "src") none
      (some "/base") "out" none false none (OtherOpts.str "-v"))
    "tbz2"
    (⟨"_common", "tar",
      ["-cpjf", "%(filename)s", "other_options", "", "-C", "%(basedir)s", "%(source)s"],
      "TBZ2", [".tbz2"], ["tar"]⟩ : CompDef)
    rfl rfl rfl rfl rfl (by decide)]
  rfl

/-! ## Order and dedup of `search_order_extensions` (C10) -/

theorem soe_inner_snd :
    ∀ (exts seen el : List String),
      (soe_inner seen el exts).2 = el ++ firstOccAux seen exts := by
  intro exts
  induction exts with
  | nil => intro seen el; simp [soe_inner, firstOccAux]
  | cons x xs ih =>
    intro seen el
    rw [soe_inner, firstOccAux]
    by_cases h : seen.contains x
    · rw [if_pos h, if_pos h, ih]
    · rw [if_neg h, if_neg h, ih]
      simp

theorem soe_inner_fst :
    ∀ (exts seen el : List String),
      (soe_inner seen el exts).1 = accSeen seen exts := by
  intro exts
  induction exts with
  | nil => intro seen el; simp [soe_inner, accSeen]
  | cons x xs ih =>
    intro seen el
    rw [soe_inner, accSeen]
    by_cases h : seen.contains x
    · rw [if_pos h, if_pos h, ih]
    · rw [if_neg h, if_neg h, ih]

theorem firstOccAux_append :
    ∀ (l₁ l₂ seen : List String),
      firstOccAux seen (l₁ ++ l₂) =
        firstOccAux seen l₁ ++ firstOccAux (accSeen seen l₁) l₂ := by
  intro l₁
  induction l₁ with
  | nil => intro l₂ seen; simp [firstOccAux, accSeen]
  | cons x xs ih =>
    intro l₂ seen
    rw [List.cons_append, firstOccAux, firstOccAux, accSeen]
    by_cases h : seen.contains x
    · rw [if_pos h, if_pos h, if_pos h, ih]
    · rw [if_neg h, if_neg h, if_neg h, ih]
      simp

/-- The extensions contributed by the supported modes of a search order, in
walking order. -/
def flatExts (map : DefMap) (search_order : List String) : List String :=
  ((search_order.filter (fun m => is_supported map m)).map (extsOf map)).flatten

theorem soe_outer_eq (map : DefMap) :
    ∀ (search_order seen el : List String),
      soe_outer map seen el search_order =
        el ++ firstOccAux seen (flatExts map search_order) := by
  intro search_order
  induction search_order with
  | nil => intro seen el; simp [soe_outer, flatExts, firstOccAux]
  | cons mode rest ih =>
    intro seen el
    rw [soe_outer]
    by_cases h : is_supported map mode
    · rw [if_pos h]
      rw [show flatExts map (mode :: rest) =
          extsOf map mode ++ flatExts map rest by
        unfold flatExts
        rw [List.filter_cons, if_pos (by simpa using h)]
        simp]
      rw [firstOccAux_append, ih, soe_inner_fst, soe_inner_snd]
      simp
    · rw [if_neg h]
      rw [show flatExts map (mode :: rest) = flatExts map rest by
        unfold flatExts
        rw [List.filter_cons, if_neg (by simpa using h)]]
      exact ih seen el

theorem firstOccAux_eq_firstOccurrences :
    ∀ (l seen : List String),
      firstOccAux seen l =
        firstOccurrences (l.filter (fun x => !seen.contains x)) := by
  intro l
  induction l with
  | nil => intro seen; simp [firstOccAux, firstOccurrences]
  | cons x xs ih =>
    intro seen
    rw [firstOccAux, List.filter_cons]
    by_cases h : seen.contains x
    · rw [if_pos h, if_neg (by simpa using h), ih]
    · rw [if_neg h, if_pos (by simpa using h), firstOccurrences, ih (x :: seen)]
      congr 1
      rw [List.filter_filter]
      congr 1
      apply List.filter_congr
      intro a _
      by_cases hax : a = x
      · simp [hax, List.contains_cons]
      · simp [hax, List.contains_cons]

theorem firstOccAux_nil_seen (l : List String) :
    firstOccAux [] l = firstOccurrences l := by
  rw [firstOccAux_eq_firstOccurrences]
  congr 1
  rw [List.filter_eq_self]
  intro a _
  simp

theorem mem_firstOccurrences :
    ∀ (l : List String) (x : String), x ∈ firstOccurrences l ↔ x ∈ l := by
  have H : ∀ (n : Nat) (l : List String), l.length ≤ n →
      ∀ x, x ∈ firstOccurrences l ↔ x ∈ l := by
    intro n
    induction n with
    | zero =>
      intro l hl x
      have hnil : l = [] := List.eq_nil_of_length_eq_zero (Nat.le_zero.mp hl)
      subst hnil
      simp [firstOccurrences]
    | succ n ih =>
      intro l hl x
      cases l with
      | nil => simp [firstOccurrences]
      | cons a as =>
        rw [firstOccurrences]
        have hlen : (as.filter (fun y => y ≠ a)).length ≤ n := by
          simp only [List.length_cons] at hl
          have := List.length_filter_le (fun y => y ≠ a) as
          omega
        rw [List.mem_cons, ih _ hlen x]
        by_cases hxa : x = a
        · simp [hxa]
        · simp [hxa, List.mem_filter]
  intro l x
  exact H l.length l (Nat.le_refl _) x

theorem nodup_firstOccurrences :
    ∀ l : List String, (firstOccurrences l).Nodup := by
  have H : ∀ (n : Nat) (l : List String), l.length ≤ n →
      (firstOccurrences l).Nodup := by
    intro n
    induction n with
    | zero =>
      intro l hl
      have hnil : l = [] := List.eq_nil_of_length_eq_zero (Nat.le_zero.mp hl)
      subst hnil
      simp [firstOccurrences]
    | succ n ih =>
      intro l hl
      cases l with
      | nil => simp [firstOccurrences]
      | cons a as =>
        rw [firstOccurrences]
        have hlen : (as.filter (fun y => y ≠ a)).length ≤ n := by
          simp only [List.length_cons] at hl
          have := List.length_filter_le (fun y => y ≠ a) as
          omega
        rw [List.nodup_cons]
        refine ⟨?_, ih _ hlen⟩
        intro hmem
        have hmem' := (mem_firstOccurrences _ _).mp hmem
        rw [List.mem_filter] at hmem'
        simp at hmem'
  intro l
  exact H l.length l (Nat.le_refl _)

/-- C10: `search_order_extensions` returns the extensions of the supported
modes of the search order with first-occurrence deduplication: it equals
the first-occurrence dedup of the concatenated extension lists (so the
relative order is encounter order), it has no duplicates, and an extension
is in the result iff some supported mode of the search order recognizes
it. -/
theorem search_order_extensions_spec (map : DefMap)
    (search_order : List String) :
    search_order_extensions map search_order =
      firstOccurrences (flatExts map search_order) ∧
    (search_order_extensions map search_order).Nodup ∧
    (∀ e, e ∈ search_order_extensions map search_order ↔
      ∃ m ∈ search_order, is_supported map m = true ∧ e ∈ extsOf map m) := by
  have heq : search_order_extensions map search_order =
      firstOccurrences (flatExts map search_order) := by
    unfold search_order_extensions
    rw [soe_outer_eq, firstOccAux_nil_seen]
    simp
  refine ⟨heq, heq ▸ nodup_firstOccurrences _, ?_⟩
  intro e
  rw [heq, mem_firstOccurrences]
  unfold flatExts
  simp only [List.mem_flatten, List.mem_map, List.mem_filter]
  constructor
  · rintro ⟨l, ⟨m, ⟨hm, hsup⟩, rfl⟩, he⟩
    exact ⟨m, hm, hsup, he⟩
  · rintro ⟨m, hm, hsup, he⟩
    exact ⟨extsOf map m, ⟨m, ⟨hm, hsup⟩, rfl⟩, he⟩

end PyDeComp

